import Mathlib

/-!
Verification development for the FinSmart personal-finance backend
(Express + Mongoose, files src/routes/transacciones.js, src/routes/metas.js,
src/models/meta.js, src/models/transacciones.js).

Shallow embedding conventions:
* JavaScript numbers are modelled as exact rationals (ℚ); JavaScript string
  operations on the relevant ASCII data are modelled by the corresponding
  Lean string operations.
* The Mongo collections are modelled as Lean lists; a per-document atomic
  update becomes a pointwise list update.
* The Mongo sort `{ prioridad: -1, fechaLimite: 1 }` compares `prioridad`
  as a BSON string (lexicographically) and, ascending on `fechaLimite`,
  places documents with a missing field first (missing is treated as null,
  and null sorts lowest).  The sort itself is modelled by an insertion sort
  consistent with that comparator.
* Fallible database writes inside the allocator's try/catch are modelled by
  a failure oracle on document ids (routes are otherwise deterministic).
-/

/-! ### Categorizer (src/routes/transacciones.js, clasificarCategoria) -/

/-- Character-list version of a prefix test, used to model
JavaScript `String.prototype.includes`. -/
def esPrefijoDe : List Char → List Char → Bool
  | [], _ => true
  | _ :: _, [] => false
  | a :: as, b :: bs => a == b && esPrefijoDe as bs

/-- `apareceEn aguja pajar` holds when `aguja` occurs as a contiguous
sublist of `pajar`. -/
def apareceEn (aguja : List Char) : List Char → Bool
  | [] => esPrefijoDe aguja []
  | c :: resto => esPrefijoDe aguja (c :: resto) || apareceEn aguja resto

/-- Model of JavaScript `texto.includes(palabra)` on an already normalized
character list. -/
def incluye (texto : List Char) (palabra : String) : Bool :=
  apareceEn palabra.toList texto

/-- Model of JavaScript `descripcion.toLowerCase().trim()` (ASCII case
mapping and whitespace trimming), producing the normalized character list
the categorizer searches. -/
def normaliza (descripcion : String) : List Char :=
  let bajas := descripcion.toList.map Char.toLower
  ((bajas.dropWhile Char.isWhitespace).reverse.dropWhile Char.isWhitespace).reverse

/-- The ordered keyword table of `clasificarCategoria`
(src/routes/transacciones.js lines 16-54), verbatim and in declared order. -/
def categorias : List (String × List String) :=
  [("alimentación",
    ["comida", "restaurante", "supermercado", "mercado", "pizza", "hamburguesa",
     "café", "desayuno", "almuerzo", "cena", "bebida", "coca cola", "agua",
     "pan", "panadería", "carnicería", "verdulería", "sushi", "delivery"]),
   ("transporte",
    ["transporte", "uber", "taxi", "bus", "metro", "gasolina", "combustible",
     "peaje", "parking", "estacionamiento", "motocicleta", "bicicleta",
     "avión", "vuelo", "tren", "barco"]),
   ("entretenimiento",
    ["cine", "ocio", "película", "teatro", "concierto", "bar", "discoteca",
     "videojuego", "netflix", "spotify", "streaming", "parque", "diversión",
     "gimnasio", "deporte", "futbol", "basquet"]),
   ("servicios",
    ["luz", "agua", "internet", "teléfono", "gas", "electricidad",
     "cable", "seguro", "banco", "notaría", "abogado", "contador",
     "limpieza", "jardinería", "reparación"]),
   ("salud",
    ["salud", "medicina", "doctor", "médico", "hospital", "clínica",
     "farmacia", "pastillas", "vitaminas", "dentista", "oftalmólogo",
     "laboratorio", "rayos x", "consulta"]),
   ("ropa",
    ["ropa", "zapato", "camisa", "pantalón", "vestido", "tienda",
     "boutique", "zapatería", "moda", "accesorios", "bolso", "cartera"]),
   ("educación",
    ["educación", "colegio", "universidad", "curso", "libro", "cuaderno",
     "lápiz", "material", "matrícula", "pensión", "tutoría"]),
   ("hogar",
    ["hogar", "casa", "mueble", "electrodoméstico", "decoración",
     "herramienta", "pintura", "construcción", "alquiler", "hipoteca"])]

/-- `clasificarCategoria` (src/routes/transacciones.js lines 13-63):
lowercases and trims the description, then returns the first category in
declared order one of whose keywords occurs in the normalized text, and
`"otros"` when none matches. -/
def clasificarCategoria (descripcion : String) : String :=
  let texto := normaliza descripcion
  match categorias.find? (fun c => c.2.any (fun palabra => incluye texto palabra)) with
  | some c => c.1
  | none => "otros"

/-- The nine valid transaction categories
(src/models/transacciones.js, `categoria` enum). -/
def categoriasValidas : List String :=
  ["alimentación", "transporte", "entretenimiento", "servicios", "salud",
   "ropa", "educación", "hogar", "otros"]

example : clasificarCategoria "" = "otros" := by decide
example : clasificarCategoria "agua" = "alimentación" := by decide
example : clasificarCategoria "Restaurante X" = "alimentación" := by decide
example : clasificarCategoria "taxi" = "transporte" := by decide

/-! ### Data model (src/models/meta.js, src/models/transacciones.js) -/

/-- A savings goal document (`metaSchema`, src/models/meta.js).  Only the
fields the routes under verification read or write are modelled.  `prioridad`
and `estado` are BSON strings constrained by the schema enums
(`'baja' | 'media' | 'alta'` and
`'activa' | 'completada' | 'pausada' | 'cancelada'`); `fechaLimite` is an
optional date, modelled as an optional integer timestamp. -/
structure Meta where
  id : Nat
  usuario : Nat
  titulo : String
  montoObjetivo : ℚ
  montoActual : ℚ
  fechaLimite : Option Int
  prioridad : String
  estado : String
deriving DecidableEq

/-- A transaction document (`transaccionSchema`, src/models/transacciones.js),
restricted to the fields the routes under verification read or write. -/
structure Transaccion where
  id : Nat
  usuario : Nat
  tipo : String
  descripcion : String
  monto : ℚ
  categoria : String
  subcategoria : Option String
  activa : Bool
deriving DecidableEq

/-- The two Mongo collections the verified routes touch, plus a counter
supplying fresh document ids. -/
structure AppState where
  metas : List Meta
  transacciones : List Transaccion
  nextId : Nat
deriving DecidableEq

/-! ### The Mongo sort `{ prioridad: -1, fechaLimite: 1 }` -/

/-- Byte-wise lexicographic string comparison on character lists: how MongoDB
(simple binary collation) compares the BSON strings stored in `prioridad`.
The schema values are ASCII, where code-point order is byte order. -/
def menorLex : List Char → List Char → Bool
  | [], [] => false
  | [], _ :: _ => true
  | _ :: _, [] => false
  | a :: as, b :: bs => decide (a < b) || (a == b && menorLex as bs)

/-- Ascending comparison on the optional `fechaLimite`: MongoDB treats a
missing field as null, and null sorts below every date, so documents without
a deadline come first in ascending order. -/
def fechaLimiteLeB : Option Int → Option Int → Bool
  | none, _ => true
  | some _, none => false
  | some a, some b => decide (a ≤ b)

/-- The comparator realised by `.sort({ prioridad: -1, fechaLimite: 1 })`
(src/routes/transacciones.js line 499): `prioridad` descending as a BSON
string, ties broken by `fechaLimite` ascending (missing first). -/
def mongoMetaLe (a b : Meta) : Bool :=
  if a.prioridad == b.prioridad then fechaLimiteLeB a.fechaLimite b.fechaLimite
  else menorLex b.prioridad.toList a.prioridad.toList

/-- Insert a goal into a list sorted by `mongoMetaLe`. -/
def insertaOrdenada (m : Meta) : List Meta → List Meta
  | [] => [m]
  | x :: xs => if mongoMetaLe m x then m :: x :: xs else x :: insertaOrdenada m xs

/-- Stable sort by `mongoMetaLe` (insertion sort), modelling the Mongo sort
of the allocator's query. -/
def ordenaMetas : List Meta → List Meta
  | [] => []
  | m :: ms => insertaOrdenada m (ordenaMetas ms)

/-- The allocator's query
`Meta.find({ usuario, estado: 'activa' }).sort({ prioridad: -1, fechaLimite: 1 })`
(src/routes/transacciones.js lines 496-499). -/
def metasQuery (usuarioId : Nat) (metas : List Meta) : List Meta :=
  ordenaMetas (metas.filter fun m => m.usuario == usuarioId && m.estado == "activa")

/-! ### Goal allocator (src/routes/transacciones.js, actualizarMetasConIngreso) -/

/-- `Meta.findByIdAndUpdate(metaId, { $inc: { montoActual: inc } })`
(src/routes/transacciones.js lines 512-514): atomic per-document increment of
`montoActual` in the collection. -/
def incMontoActual (metas : List Meta) (metaId : Nat) (inc : ℚ) : List Meta :=
  metas.map fun m =>
    if m.id = metaId then { m with montoActual := m.montoActual + inc } else m

/-- The allocator loop (src/routes/transacciones.js lines 504-517) when no
database write fails: iterate the query result `gs` over the collection
`metas`, breaking when the pool is exhausted, skipping goals without
remaining capacity, otherwise contributing `min pool (objetivo - actual)`
and deducting it from the pool. -/
def allocRun : ℚ → List Meta → List Meta → List Meta
  | _, [], metas => metas
  | pool, g :: rest, metas =>
    if pool ≤ 0 then metas
    else if g.montoObjetivo - g.montoActual ≤ 0 then allocRun pool rest metas
    else allocRun (pool - min pool (g.montoObjetivo - g.montoActual)) rest
          (incMontoActual metas g.id (min pool (g.montoObjetivo - g.montoActual)))

/-- The allocator loop with fallible writes: `oracle g.id = true` means the
`findByIdAndUpdate` for goal `g` throws.  The surrounding try/catch
(src/routes/transacciones.js lines 494-520) then logs and swallows the
error, so the run ends returning the collection as updated so far. -/
def allocRunTry (oracle : Nat → Bool) : ℚ → List Meta → List Meta → List Meta
  | _, [], metas => metas
  | pool, g :: rest, metas =>
    if pool ≤ 0 then metas
    else if g.montoObjetivo - g.montoActual ≤ 0 then allocRunTry oracle pool rest metas
    else if oracle g.id then metas
    else allocRunTry oracle (pool - min pool (g.montoObjetivo - g.montoActual)) rest
          (incMontoActual metas g.id (min pool (g.montoObjetivo - g.montoActual)))

/-- `actualizarMetasConIngreso` (src/routes/transacciones.js lines 493-521)
in the failure-free case: the pool is `montoIngreso * 0.1` (the JavaScript
literal `0.1`, written `1/10` in ℚ), distributed over the sorted active
goals of the user. -/
def actualizarMetasConIngreso (usuarioId : Nat) (montoIngreso : ℚ)
    (metas : List Meta) : List Meta :=
  allocRun (montoIngreso * (1/10)) (metasQuery usuarioId metas) metas

/-- `actualizarMetasConIngreso` with the failure oracle for its database
writes; the catch block makes the whole call total. -/
def actualizarMetasConIngresoTry (oracle : Nat → Bool) (usuarioId : Nat)
    (montoIngreso : ℚ) (metas : List Meta) : List Meta :=
  allocRunTry oracle (montoIngreso * (1/10)) (metasQuery usuarioId metas) metas

/-! ### Transaction routes (src/routes/transacciones.js) -/

/-- The request body of POST / and PUT /:id on /transacciones, restricted to
the fields the verified logic reads (`fecha` and `metodo_pago` only undergo
independent format validation and are never read by the verified logic). -/
structure TransaccionInput where
  tipo : String
  descripcion : String
  monto : ℚ
  categoria : Option String
deriving DecidableEq

/-- `validacionTransaccion` (src/routes/transacciones.js lines 66-94) on the
modelled fields: `tipo` in {ingreso, gasto}, trimmed description of length
3-200, `monto ≥ 0.01`, and, when given, a valid `categoria`. -/
def validaTransaccion (inp : TransaccionInput) : Bool :=
  (inp.tipo == "ingreso" || inp.tipo == "gasto") &&
  (3 ≤ (normaliza inp.descripcion).length && (normaliza inp.descripcion).length ≤ 200) &&
  decide ((1/100 : ℚ) ≤ inp.monto) &&
  (match inp.categoria with
   | none => true
   | some c => categoriasValidas.contains c)

/-- Outcome of POST /transacciones: 400 on validation failure, else 201 with
the persisted transaction. -/
inductive PostResult where
  | badRequest
  | created (t : Transaccion)
deriving DecidableEq

/-- HTTP status code attached to a `PostResult` by the handler
(`res.status(400)` / `res.status(201)`). -/
def postStatus : PostResult → Nat
  | .badRequest => 400
  | .created _ => 201

/-- The transaction document built by POST /transacciones
(src/routes/transacciones.js lines 107-117): category from the body when
present, otherwise from the categorizer. -/
def nuevaTransaccionDe (usuarioId : Nat) (inp : TransaccionInput) (txId : Nat) :
    Transaccion :=
  { id := txId, usuario := usuarioId, tipo := inp.tipo,
    descripcion := inp.descripcion, monto := inp.monto,
    categoria := inp.categoria.getD (clasificarCategoria inp.descripcion),
    subcategoria := none, activa := true }

/-- POST /transacciones (src/routes/transacciones.js lines 97-147): validate,
persist the transaction, and, exactly when its `tipo` is `'ingreso'`, run the
goal allocator as a side effect before answering 201. -/
def crearTransaccion (oracle : Nat → Bool) (usuarioId : Nat)
    (inp : TransaccionInput) (s : AppState) : AppState × PostResult :=
  if validaTransaccion inp then
    let nueva := nuevaTransaccionDe usuarioId inp s.nextId
    let s1 : AppState :=
      { s with transacciones := s.transacciones ++ [nueva], nextId := s.nextId + 1 }
    let s2 :=
      if nueva.tipo == "ingreso" then
        { s1 with metas := actualizarMetasConIngresoTry oracle usuarioId nueva.monto s1.metas }
      else s1
    (s2, .created nueva)
  else (s, .badRequest)

/-- Outcome of PUT /transacciones/:id. -/
inductive PutResult where
  | badRequest
  | notFound
  | ok (t : Transaccion)
deriving DecidableEq

/-- `findOneAndUpdate`: update the first document matching `p` with `f`. -/
def updateFirstTx (p : Transaccion → Bool) (f : Transaccion → Transaccion) :
    List Transaccion → List Transaccion
  | [] => []
  | t :: ts => if p t then f t :: ts else t :: updateFirstTx p f ts

/-- PUT /transacciones/:id (src/routes/transacciones.js lines 280-341):
validate, recompute the category exactly as POST does, and update the first
active transaction of the caller with the given id.  The handler never
touches the `Meta` collection. -/
def actualizarTransaccion (usuarioId txId : Nat) (inp : TransaccionInput)
    (s : AppState) : AppState × PutResult :=
  if validaTransaccion inp then
    let categoriaFinal := inp.categoria.getD (clasificarCategoria inp.descripcion)
    let p : Transaccion → Bool :=
      fun t => t.id == txId && t.usuario == usuarioId && t.activa
    match s.transacciones.find? p with
    | none => (s, .notFound)
    | some t =>
      let t' := { t with tipo := inp.tipo, descripcion := inp.descripcion,
                         monto := inp.monto, categoria := categoriaFinal }
      ({ s with transacciones := updateFirstTx p (fun _ => t') s.transacciones }, .ok t')
  else (s, .badRequest)

/-! ### Manual goal contribution (src/routes/metas.js, POST /:id/agregar) -/

/-- Outcome of POST /metas/:id/agregar. -/
inductive AgregarResult where
  | badRequest
  | notFound
  | excedeObjetivo (montoMaximo : ℚ)
  | ok (meta : Meta) (transaccion : Transaccion)
deriving DecidableEq

/-- HTTP status code attached to an `AgregarResult` by the handler:
`res.status(400)` for validation and capacity errors, `res.status(404)` for a
missing active goal, and the default 200 `res.json` on success. -/
def agregarStatus : AgregarResult → Nat
  | .badRequest => 400
  | .notFound => 404
  | .excedeObjetivo _ => 400
  | .ok _ _ => 200

/-- `findOneAndUpdate`-style first-match replacement in the goal collection,
modelling `meta.save()` writing back the loaded document. -/
def updateFirstMeta (p : Meta → Bool) (m' : Meta) : List Meta → List Meta
  | [] => []
  | m :: ms => if p m then m' :: ms else m :: updateFirstMeta p m' ms

/-- POST /metas/:id/agregar (src/routes/metas.js lines 297-374): validate
(`monto ≥ 0.01`, optional description of at most 200 characters), load the
caller's active goal, reject a contribution exceeding the target reporting
`montoMaximo = montoObjetivo - montoActual`, otherwise increment
`montoActual`, mark the goal `'completada'` when the target is reached,
persist it, and record one expense transaction with subcategory
`'ahorro_meta'`. -/
def validaAporte (monto : ℚ) (descripcionOpt : Option String) : Bool :=
  decide ((1/100 : ℚ) ≤ monto) &&
  (match descripcionOpt with
   | none => true
   | some d => (normaliza d).length ≤ 200)

def agregarAMeta (usuarioId metaId : Nat) (monto : ℚ)
    (descripcionOpt : Option String) (s : AppState) : AppState × AgregarResult :=
  if validaAporte monto descripcionOpt then
    let descripcion := descripcionOpt.getD "Aporte a meta"
    let p : Meta → Bool :=
      fun m => m.id == metaId && m.usuario == usuarioId && m.estado == "activa"
    match s.metas.find? p with
    | none => (s, .notFound)
    | some meta =>
      if meta.montoActual + monto > meta.montoObjetivo then
        (s, .excedeObjetivo (meta.montoObjetivo - meta.montoActual))
      else
        let montoNuevo := meta.montoActual + monto
        let meta' : Meta :=
          { meta with montoActual := montoNuevo,
                      estado := if montoNuevo ≥ meta.montoObjetivo then "completada"
                                else meta.estado }
        let nuevaTransaccion : Transaccion :=
          { id := s.nextId, usuario := usuarioId, tipo := "gasto",
            descripcion := descripcion ++ " - " ++ meta.titulo, monto := monto,
            categoria := "otros", subcategoria := some "ahorro_meta", activa := true }
        ({ s with metas := updateFirstMeta p meta' s.metas,
                  transacciones := s.transacciones ++ [nuevaTransaccion],
                  nextId := s.nextId + 1 },
         .ok meta' nuevaTransaccion)
  else (s, .badRequest)

/-! ### Derived quantities and helper lemmas -/

/-- Sum of the current amounts over a goal collection. -/
def totalActual (metas : List Meta) : ℚ := (metas.map Meta.montoActual).sum

/-- `montoFaltante` of a goal: its remaining capacity. -/
def capacidadRestante (g : Meta) : ℚ := g.montoObjetivo - g.montoActual

/-- Total remaining capacity of a list of goals. -/
def capacidadTotal (gs : List Meta) : ℚ := (gs.map capacidadRestante).sum

/-- A goal with its current amount erased: two goals with the same
`sinMonto` image agree on every field except possibly `montoActual`. -/
def sinMonto (m : Meta) : Meta := { m with montoActual := 0 }

theorem perm_insertaOrdenada (m : Meta) : ∀ l : List Meta, (insertaOrdenada m l).Perm (m :: l)
  | [] => List.Perm.refl _
  | x :: xs => by
    rw [insertaOrdenada]
    by_cases h : mongoMetaLe m x
    · rw [if_pos h]
    · rw [if_neg h]
      exact ((perm_insertaOrdenada m xs).cons x).trans (List.Perm.swap m x xs)

theorem perm_ordenaMetas : ∀ l : List Meta, (ordenaMetas l).Perm l
  | [] => List.Perm.refl _
  | m :: ms => (perm_insertaOrdenada m (ordenaMetas ms)).trans ((perm_ordenaMetas ms).cons m)

theorem mem_of_mem_metasQuery {u : Nat} {metas : List Meta} {g : Meta}
    (h : g ∈ metasQuery u metas) : g ∈ metas ∧ g.usuario = u ∧ g.estado = "activa" := by
  have h1 := (perm_ordenaMetas _).mem_iff.mp h
  have h2 := List.mem_filter.mp h1
  refine ⟨h2.1, ?_, ?_⟩
  · have := h2.2
    simp only [Bool.and_eq_true, beq_iff_eq] at this
    exact this.1
  · have := h2.2
    simp only [Bool.and_eq_true, beq_iff_eq] at this
    exact this.2

theorem nodup_ids_metasQuery (u : Nat) {metas : List Meta}
    (h : (metas.map Meta.id).Nodup) :
    ((metasQuery u metas).map Meta.id).Nodup := by
  have h1 : ((metas.filter fun m => m.usuario == u && m.estado == "activa").map Meta.id).Nodup :=
    ((List.filter_sublist _).map Meta.id).nodup h
  exact ((perm_ordenaMetas _).map Meta.id).symm.nodup h1

theorem countP_id_eq_one {metas : List Meta} {g : Meta}
    (hnd : (metas.map Meta.id).Nodup) (hg : g ∈ metas) :
    metas.countP (fun m => m.id == g.id) = 1 := by
  induction metas with
  | nil => cases hg
  | cons m ms ih =>
    rw [List.map_cons, List.nodup_cons] at hnd
    rw [List.countP_cons]
    rcases List.mem_cons.mp hg with rfl | hg'
    · have h0 : ms.countP (fun m' => m'.id == g.id) = 0 := by
        rw [List.countP_eq_zero]
        intro x hx hxe
        rw [beq_iff_eq] at hxe
        exact hnd.1 (hxe ▸ List.mem_map_of_mem Meta.id hx)
      simp [h0]
    · have hne : (m.id == g.id) = false := by
        rw [beq_eq_false_iff_ne]
        intro he
        exact hnd.1 (he ▸ List.mem_map_of_mem Meta.id hg')
      simp [hne, ih hnd.2 hg']

theorem eq_of_id_eq {metas : List Meta} {a b : Meta}
    (hnd : (metas.map Meta.id).Nodup) (ha : a ∈ metas) (hb : b ∈ metas)
    (h : a.id = b.id) : a = b :=
  List.inj_on_of_nodup_map hnd ha hb h

theorem id_incMontoActual_entry (m : Meta) (metaId : Nat) (inc : ℚ) :
    (if m.id = metaId then { m with montoActual := m.montoActual + inc } else m).id = m.id := by
  by_cases h : m.id = metaId <;> simp [h]

theorem countP_id_incMontoActual (metas : List Meta) (metaId j : Nat) (inc : ℚ) :
    (incMontoActual metas metaId inc).countP (fun m => m.id == j) =
      metas.countP (fun m => m.id == j) := by
  rw [incMontoActual, List.countP_map]
  apply List.countP_congr
  intro m _
  simp only [Function.comp_apply, id_incMontoActual_entry]

theorem totalActual_incMontoActual (metas : List Meta) (metaId : Nat) (inc : ℚ) :
    totalActual (incMontoActual metas metaId inc) =
      totalActual metas + inc * (metas.countP (fun m => m.id == metaId) : ℚ) := by
  induction metas with
  | nil => simp [totalActual, incMontoActual]
  | cons m ms ih =>
    simp only [totalActual, incMontoActual, List.map_cons, List.sum_cons,
      List.countP_cons] at ih ⊢
    by_cases h : m.id = metaId
    · simp only [h, if_pos rfl, beq_self_eq_true, if_true]
      rw [ih]
      push_cast
      ring
    · have hne : (m.id == metaId) = false := by rwa [beq_eq_false_iff_ne]
      simp only [h, if_false, hne]
      rw [ih]
      push_cast
      ring

theorem capacidadTotal_nonneg {gs : List Meta}
    (h : ∀ g ∈ gs, g.montoActual ≤ g.montoObjetivo) : 0 ≤ capacidadTotal gs := by
  apply List.sum_nonneg
  intro x hx
  obtain ⟨g, hg, rfl⟩ := List.mem_map.mp hx
  have := h g hg
  simp only [capacidadRestante]
  linarith

/-- The snapshot/collection correspondence used in the allocator inductions:
every collection entry carrying the id of a pending snapshot goal still has
that goal's amounts. -/
def Corresponde (gs metas : List Meta) : Prop :=
  ∀ g ∈ gs, ∀ m ∈ metas, m.id = g.id →
    m.montoActual = g.montoActual ∧ m.montoObjetivo = g.montoObjetivo

theorem corresponde_tail_inc {g : Meta} {rest metas : List Meta} (a : ℚ)
    (hnotin : g.id ∉ rest.map Meta.id)
    (hcorr : Corresponde (g :: rest) metas) :
    Corresponde rest (incMontoActual metas g.id a) := by
  intro g' hg' m' hm' hid
  obtain ⟨m₀, hm₀, rfl⟩ := List.mem_map.mp hm'
  by_cases h : m₀.id = g.id
  · exfalso
    rw [id_incMontoActual_entry] at hid
    have hgid : g'.id = g.id := by rw [← hid, h]
    exact hnotin (hgid ▸ List.mem_map_of_mem Meta.id hg')
  · rw [if_neg h]
    rw [id_incMontoActual_entry] at hid
    exact hcorr g' (List.mem_cons_of_mem _ hg') m₀ hm₀ hid

theorem allocRun_actual_le (gs : List Meta) :
    ∀ (pool : ℚ) (metas : List Meta),
      (gs.map Meta.id).Nodup →
      Corresponde gs metas →
      (∀ m ∈ metas, m.montoActual ≤ m.montoObjetivo) →
      ∀ m ∈ allocRun pool gs metas, m.montoActual ≤ m.montoObjetivo := by
  induction gs with
  | nil =>
    intro pool metas _ _ hinv
    simpa [allocRun] using hinv
  | cons g rest ih =>
    intro pool metas hnd hcorr hinv
    rw [List.map_cons, List.nodup_cons] at hnd
    rw [allocRun]
    split_ifs with h1 h2
    · exact hinv
    · exact ih pool metas hnd.2 (fun g' hg' => hcorr g' (List.mem_cons_of_mem _ hg')) hinv
    · apply ih _ _ hnd.2 (corresponde_tail_inc _ hnd.1 hcorr)
      intro m' hm'
      obtain ⟨m₀, hm₀, rfl⟩ := List.mem_map.mp hm'
      by_cases h : m₀.id = g.id
      · obtain ⟨hact, hobj⟩ := hcorr g (List.mem_cons_self g rest) m₀ hm₀ h
        have hmin : min pool (g.montoObjetivo - g.montoActual) ≤
            g.montoObjetivo - g.montoActual := min_le_right _ _
        simp only [if_pos h]
        simp only [hact, hobj]
        linarith
      · simpa [if_neg h] using hinv m₀ hm₀

theorem allocRun_totalActual (gs : List Meta) :
    ∀ (pool : ℚ) (metas : List Meta),
      0 ≤ pool →
      (gs.map Meta.id).Nodup →
      (∀ g ∈ gs, metas.countP (fun m => m.id == g.id) = 1) →
      Corresponde gs metas →
      (∀ g ∈ gs, g.montoActual ≤ g.montoObjetivo) →
      totalActual (allocRun pool gs metas) =
        totalActual metas + min pool (capacidadTotal gs) := by
  induction gs with
  | nil =>
    intro pool metas hpool _ _ _ _
    simp [allocRun, capacidadTotal, min_eq_right hpool]
  | cons g rest ih =>
    intro pool metas hpool hnd hcount hcorr hcap
    rw [List.map_cons, List.nodup_cons] at hnd
    have hcapg : g.montoActual ≤ g.montoObjetivo := hcap g (List.mem_cons_self g rest)
    have hcaprest : 0 ≤ capacidadTotal rest :=
      capacidadTotal_nonneg (fun g' hg' => hcap g' (List.mem_cons_of_mem _ hg'))
    have hctot : capacidadTotal (g :: rest) =
        (g.montoObjetivo - g.montoActual) + capacidadTotal rest := by
      simp [capacidadTotal, capacidadRestante]
    rw [allocRun]
    split_ifs with h1 h2
    · have hp0 : pool = 0 := le_antisymm h1 hpool
      have : 0 ≤ capacidadTotal (g :: rest) := by
        rw [hctot]; linarith
      rw [hp0, min_eq_left this]
      ring
    · have hz : g.montoObjetivo - g.montoActual = 0 := by linarith
      rw [ih pool metas hpool hnd.2
          (fun g' hg' => hcount g' (List.mem_cons_of_mem _ hg'))
          (fun g' hg' => hcorr g' (List.mem_cons_of_mem _ hg'))
          (fun g' hg' => hcap g' (List.mem_cons_of_mem _ hg')),
        hctot, hz]
      ring_nf
    · set f := g.montoObjetivo - g.montoActual with hf
      set a := min pool f with ha
      have hfpos : 0 < f := by simp only [not_le] at h2; exact h2
      have hppos : 0 < pool := by simp only [not_le] at h1; exact h1
      have hale : a ≤ pool := min_le_left _ _
      have h0a : 0 ≤ a := le_min (le_of_lt hppos) (le_of_lt hfpos)
      have htot' : totalActual (incMontoActual metas g.id a) = totalActual metas + a := by
        rw [totalActual_incMontoActual,
          hcount g (List.mem_cons_self g rest)]
        push_cast
        ring
      rw [ih (pool - a) (incMontoActual metas g.id a) (by linarith) hnd.2
          (fun g' hg' => by
            rw [countP_id_incMontoActual]
            exact hcount g' (List.mem_cons_of_mem _ hg'))
          (corresponde_tail_inc _ hnd.1 hcorr)
          (fun g' hg' => hcap g' (List.mem_cons_of_mem _ hg')),
        htot', hctot]
      rcases le_total pool f with hle | hle
      · have ha1 : a = pool := by rw [ha, min_eq_left hle]
        rw [ha1, sub_self, min_eq_left hcaprest,
          min_eq_left (show pool ≤ f + capacidadTotal rest by linarith)]
        ring
      · have ha1 : a = f := by rw [ha, min_eq_right hle]
        rcases le_total (pool - a) (capacidadTotal rest) with hle2 | hle2
        · have h2 : min (pool - a) (capacidadTotal rest) = pool - a :=
            min_eq_left hle2
          have h3 : min pool (f + capacidadTotal rest) = pool :=
            min_eq_left (by rw [ha1] at hle2; linarith)
          rw [h2, h3]
          ring
        · have h2 : min (pool - a) (capacidadTotal rest) = capacidadTotal rest :=
            min_eq_right hle2
          have h3 : min pool (f + capacidadTotal rest) = f + capacidadTotal rest :=
            min_eq_right (by rw [ha1] at hle2; linarith)
          rw [h2, h3, ha1]
          ring

theorem map_sinMonto_incMontoActual (metas : List Meta) (metaId : Nat) (inc : ℚ) :
    (incMontoActual metas metaId inc).map sinMonto = metas.map sinMonto := by
  rw [incMontoActual, List.map_map]
  apply List.map_congr_left
  intro m _
  obtain ⟨i, u, t, o, a, fl, pr, e⟩ := m
  by_cases h : i = metaId <;> simp [h, sinMonto, Function.comp_apply]

theorem allocRun_map_sinMonto (gs : List Meta) :
    ∀ (pool : ℚ) (metas : List Meta),
      (allocRun pool gs metas).map sinMonto = metas.map sinMonto := by
  induction gs with
  | nil => intro pool metas; rw [allocRun]
  | cons g rest ih =>
    intro pool metas
    rw [allocRun]
    split_ifs with h1 h2
    · rfl
    · exact ih pool metas
    · rw [ih, map_sinMonto_incMontoActual]

theorem allocRun_frame_id_not_mem (gs : List Meta) :
    ∀ (pool : ℚ) (metas : List Meta) (i : Nat) (m : Meta),
      metas[i]? = some m → m.id ∉ gs.map Meta.id →
      (allocRun pool gs metas)[i]? = some m := by
  induction gs with
  | nil => intro pool metas i m hm _; rw [allocRun]; exact hm
  | cons g rest ih =>
    intro pool metas i m hm hnotin
    rw [List.map_cons, List.mem_cons] at hnotin
    push_neg at hnotin
    rw [allocRun]
    split_ifs with h1 h2
    · exact hm
    · exact ih pool metas i m hm hnotin.2
    · apply ih _ _ i m _ hnotin.2
      rw [incMontoActual, List.getElem?_map, hm]
      simp [hnotin.1]

theorem clasificarCategoria_eq (s : String) :
    clasificarCategoria s =
      match categorias.find?
          (fun c => c.2.any (fun palabra => incluye (normaliza s) palabra)) with
      | some c => c.1
      | none => "otros" := rfl

theorem allocRunTry_false (gs : List Meta) :
    ∀ (pool : ℚ) (metas : List Meta),
      allocRunTry (fun _ => false) pool gs metas = allocRun pool gs metas := by
  induction gs with
  | nil => intro pool metas; rw [allocRunTry, allocRun]
  | cons g rest ih =>
    intro pool metas
    rw [allocRunTry, allocRun]
    split_ifs with h1 h2 h3
    · rfl
    · exact ih pool metas
    · exact absurd h3 (by simp)
    · exact ih _ _

/-! ### Claims -/

/-- Claim C8: `clasificarCategoria` is a total deterministic function on
arbitrary strings.  It always returns one of the nine declared categories;
the empty string and any text matching no keyword yield `"otros"`;
`"restaurante"` yields `"alimentación"`; and for the keyword `"agua"`, which
occurs in both the `alimentación` and the `servicios` keyword lists, the
earlier-declared category `alimentación` wins. -/
theorem c8_clasificador_total :
    (∀ s : String, clasificarCategoria s ∈ categoriasValidas) ∧
    clasificarCategoria "" = "otros" ∧
    clasificarCategoria "restaurante" = "alimentación" ∧
    clasificarCategoria "agua" = "alimentación" ∧
    ((categorias.any fun c => c.1 == "alimentación" && c.2.contains "agua") = true ∧
     (categorias.any fun c => c.1 == "servicios" && c.2.contains "agua") = true) ∧
    (∀ s : String,
      (categorias.all fun c => c.2.all fun palabra => !incluye (normaliza s) palabra) = true →
      clasificarCategoria s = "otros") := by
  refine ⟨?_, by decide, by decide, by decide, ⟨by decide, by decide⟩, ?_⟩
  · intro s
    rw [clasificarCategoria_eq]
    cases hf : categorias.find?
        (fun c => c.2.any (fun palabra => incluye (normaliza s) palabra)) with
    | none => decide
    | some c =>
      have hc : c ∈ categorias := List.mem_of_find?_eq_some hf
      fin_cases hc <;> decide
  · intro s hall
    rw [clasificarCategoria_eq]
    cases hf : categorias.find?
        (fun c => c.2.any (fun palabra => incluye (normaliza s) palabra)) with
    | none => rfl
    | some c =>
      exfalso
      have hc : c ∈ categorias := List.mem_of_find?_eq_some hf
      have hpred := List.find?_some hf
      rw [List.all_eq_true] at hall
      have hcall := hall c hc
      rw [List.all_eq_true] at hcall
      rw [List.any_eq_true] at hpred
      obtain ⟨palabra, hpal, hinc⟩ := hpred
      have := hcall palabra hpal
      rw [hinc] at this
      cases this

/-- Witness for C8: the string "xyz" matches no keyword of any category and
is classified as `"otros"`. -/
theorem c8_clasificador_total_witness :
    (categorias.all fun c => c.2.all fun palabra => !incluye (normaliza "xyz") palabra) = true ∧
    clasificarCategoria "xyz" = "otros" :=
  ⟨by decide, c8_clasificador_total.2.2.2.2.2 "xyz" (by decide)⟩

/-- Claim C4: for an active goal of the caller, a positive contribution with
`montoActual + monto > montoObjetivo` is rejected with the 400 capacity
error whose payload reports `montoMaximo = montoObjetivo - montoActual`, and
the application state (goal and transactions) is left unchanged. -/
theorem c4_aporte_rechaza_exceso
    (usuarioId metaId : Nat) (monto : ℚ) (descripcionOpt : Option String)
    (s : AppState) (meta : Meta)
    (hval : validaAporte monto descripcionOpt = true)
    (hfind : s.metas.find?
        (fun m => m.id == metaId && m.usuario == usuarioId && m.estado == "activa") =
        some meta)
    (hexceso : meta.montoActual + monto > meta.montoObjetivo) :
    agregarAMeta usuarioId metaId monto descripcionOpt s =
      (s, AgregarResult.excedeObjetivo (meta.montoObjetivo - meta.montoActual)) ∧
    agregarStatus (agregarAMeta usuarioId metaId monto descripcionOpt s).2 = 400 := by
  have heq : agregarAMeta usuarioId metaId monto descripcionOpt s =
      (s, AgregarResult.excedeObjetivo (meta.montoObjetivo - meta.montoActual)) := by
    rw [agregarAMeta.eq_def, if_pos hval]
    simp only [hfind]
    rw [if_pos hexceso]
  exact ⟨heq, by rw [heq]; rfl⟩

/-- Witness for C4: the spec's example — goal with target 100 and current
amount 90; a contribution of 20 is rejected with `montoMaximo = 10` and the
state is unchanged. -/
theorem c4_aporte_rechaza_exceso_witness :
    (agregarAMeta 1 5 20 none
        { metas := [{ id := 5, usuario := 1, titulo := "Meta", montoObjetivo := 100,
                      montoActual := 90, fechaLimite := none, prioridad := "media",
                      estado := "activa" }],
          transacciones := [], nextId := 6 } =
      ({ metas := [{ id := 5, usuario := 1, titulo := "Meta", montoObjetivo := 100,
                     montoActual := 90, fechaLimite := none, prioridad := "media",
                     estado := "activa" }],
         transacciones := [], nextId := 6 },
       AgregarResult.excedeObjetivo 10)) := by
  have h := c4_aporte_rechaza_exceso 1 5 20 none
    { metas := [{ id := 5, usuario := 1, titulo := "Meta", montoObjetivo := 100,
                  montoActual := 90, fechaLimite := none, prioridad := "media",
                  estado := "activa" }],
      transacciones := [], nextId := 6 }
    { id := 5, usuario := 1, titulo := "Meta", montoObjetivo := 100,
      montoActual := 90, fechaLimite := none, prioridad := "media", estado := "activa" }
    (by norm_num [validaAporte]) (by decide) (by norm_num)
  rw [h.1]
  norm_num

/-- Claim C5: a valid contribution within capacity increments the goal's
current amount by exactly `monto`, sets the status to `"completada"` exactly
when the new amount reaches the target, appends exactly one new
expense-type transaction tagged with subcategory `"ahorro_meta"`, and
returns both the updated goal and the created transaction. -/
theorem c5_aporte_exitoso
    (usuarioId metaId : Nat) (monto : ℚ) (descripcionOpt : Option String)
    (s : AppState) (meta : Meta)
    (hval : validaAporte monto descripcionOpt = true)
    (hfind : s.metas.find?
        (fun m => m.id == metaId && m.usuario == usuarioId && m.estado == "activa") =
        some meta)
    (hcabe : meta.montoActual + monto ≤ meta.montoObjetivo) :
    ∃ (meta' : Meta) (tx : Transaccion),
      (agregarAMeta usuarioId metaId monto descripcionOpt s).2 =
        AgregarResult.ok meta' tx ∧
      meta'.montoActual = meta.montoActual + monto ∧
      (meta'.estado = "completada" ↔ meta.montoActual + monto = meta.montoObjetivo) ∧
      ((agregarAMeta usuarioId metaId monto descripcionOpt s).1).transacciones =
        s.transacciones ++ [tx] ∧
      tx.tipo = "gasto" ∧
      tx.subcategoria = some "ahorro_meta" ∧
      tx.monto = monto ∧
      agregarStatus (agregarAMeta usuarioId metaId monto descripcionOpt s).2 = 200 ∧
      ((agregarAMeta usuarioId metaId monto descripcionOpt s).1).metas =
        updateFirstMeta
          (fun m => m.id == metaId && m.usuario == usuarioId && m.estado == "activa")
          meta' s.metas := by
  have hestado : meta.estado = "activa" := by
    have hp := List.find?_some hfind
    simp only [Bool.and_eq_true, beq_iff_eq] at hp
    exact hp.2
  have hnoexceso : ¬(meta.montoActual + monto > meta.montoObjetivo) := not_lt.mpr hcabe
  have heq : agregarAMeta usuarioId metaId monto descripcionOpt s =
      ({ s with
          metas := updateFirstMeta
            (fun m => m.id == metaId && m.usuario == usuarioId && m.estado == "activa")
            { meta with
                montoActual := meta.montoActual + monto,
                estado := if meta.montoActual + monto ≥ meta.montoObjetivo then "completada"
                          else meta.estado } s.metas,
          transacciones := s.transacciones ++
            [{ id := s.nextId, usuario := usuarioId, tipo := "gasto",
               descripcion := (descripcionOpt.getD "Aporte a meta") ++ " - " ++ meta.titulo,
               monto := monto, categoria := "otros",
               subcategoria := some "ahorro_meta", activa := true }],
          nextId := s.nextId + 1 },
       AgregarResult.ok
         { meta with
             montoActual := meta.montoActual + monto,
             estado := if meta.montoActual + monto ≥ meta.montoObjetivo then "completada"
                       else meta.estado }
         { id := s.nextId, usuario := usuarioId, tipo := "gasto",
           descripcion := (descripcionOpt.getD "Aporte a meta") ++ " - " ++ meta.titulo,
           monto := monto, categoria := "otros",
           subcategoria := some "ahorro_meta", activa := true }) := by
    rw [agregarAMeta.eq_def, if_pos hval]
    simp only [hfind]
    rw [if_neg hnoexceso]
  refine ⟨_, _, by rw [heq], by simp, ?_, by rw [heq], rfl, rfl, rfl, by rw [heq]; rfl,
    by rw [heq]⟩
  constructor
  · intro hcomp
    by_cases hge : meta.montoActual + monto ≥ meta.montoObjetivo
    · exact le_antisymm hcabe hge
    · rw [if_neg hge, hestado] at hcomp
      exact absurd hcomp (by decide)
  · intro hreach
    rw [if_pos (le_of_eq hreach.symm)]

/-- The spec's completion example: active goal with target 100, current 90. -/
def metaC5Ej : Meta :=
  { id := 3, usuario := 1, titulo := "Meta", montoObjetivo := 100, montoActual := 90,
    fechaLimite := none, prioridad := "media", estado := "activa" }

/-- Application state holding only the completion-example goal. -/
def estadoC5Ej : AppState := { metas := [metaC5Ej], transacciones := [], nextId := 7 }

/-- Witness for C5: contributing 10 to the target-100/current-90 goal
completes it and records one expense transaction. -/
theorem c5_aporte_exitoso_witness :
    validaAporte 10 none = true ∧
    estadoC5Ej.metas.find?
      (fun m => m.id == 3 && m.usuario == 1 && m.estado == "activa") = some metaC5Ej ∧
    metaC5Ej.montoActual + 10 ≤ metaC5Ej.montoObjetivo ∧
    (∃ (meta' : Meta) (tx : Transaccion),
      (agregarAMeta 1 3 10 none estadoC5Ej).2 = AgregarResult.ok meta' tx ∧
      meta'.montoActual = metaC5Ej.montoActual + 10 ∧
      (meta'.estado = "completada" ↔ metaC5Ej.montoActual + 10 = metaC5Ej.montoObjetivo) ∧
      ((agregarAMeta 1 3 10 none estadoC5Ej).1).transacciones =
        estadoC5Ej.transacciones ++ [tx] ∧
      tx.tipo = "gasto" ∧
      tx.subcategoria = some "ahorro_meta" ∧
      tx.monto = 10 ∧
      agregarStatus (agregarAMeta 1 3 10 none estadoC5Ej).2 = 200 ∧
      ((agregarAMeta 1 3 10 none estadoC5Ej).1).metas =
        updateFirstMeta (fun m => m.id == 3 && m.usuario == 1 && m.estado == "activa")
          meta' estadoC5Ej.metas) :=
  ⟨by norm_num [validaAporte], by decide, by norm_num [metaC5Ej],
   c5_aporte_exitoso 1 3 10 none estadoC5Ej metaC5Ej (by norm_num [validaAporte])
     (by decide) (by norm_num [metaC5Ej])⟩

theorem allocRunTry_map_sinMonto (oracle : Nat → Bool) (gs : List Meta) :
    ∀ (pool : ℚ) (metas : List Meta),
      (allocRunTry oracle pool gs metas).map sinMonto = metas.map sinMonto := by
  induction gs with
  | nil => intro pool metas; rw [allocRunTry]
  | cons g rest ih =>
    intro pool metas
    rw [allocRunTry]
    split_ifs with h1 h2 h3
    · rfl
    · exact ih pool metas
    · rfl
    · rw [ih, map_sinMonto_incMontoActual]

/-- The C6 scenario: a single active goal whose remaining capacity equals
the allocator pool, so automatic allocation fills it to its target. -/
def metaC6Ej : Meta :=
  { id := 9, usuario := 1, titulo := "Meta", montoObjetivo := 10, montoActual := 0,
    fechaLimite := none, prioridad := "alta", estado := "activa" }

/-- Claim C6: the allocator only ever changes `montoActual`.  Mapped under
`sinMonto` (which erases `montoActual`) any run, failing or not, leaves the
collection unchanged — so ids, owners, targets, deadlines, priorities and in
particular `estado` are untouched; goals whose id is not in the processed
query keep even their `montoActual`; a whole POST /transacciones appends
exactly the one income transaction, the allocation itself creating none; and
a goal filled to its target by automatic allocation stays `"activa"`. -/
theorem c6_asignador_solo_montoActual :
    (∀ (oracle : Nat → Bool) (pool : ℚ) (gs metas : List Meta),
       (allocRunTry oracle pool gs metas).map sinMonto = metas.map sinMonto) ∧
    (∀ (pool : ℚ) (gs metas : List Meta) (i : Nat) (m : Meta),
       metas[i]? = some m → m.id ∉ gs.map Meta.id →
       (allocRun pool gs metas)[i]? = some m) ∧
    (∀ (oracle : Nat → Bool) (usuarioId : Nat) (inp : TransaccionInput) (s : AppState),
       validaTransaccion inp = true →
       ((crearTransaccion oracle usuarioId inp s).1).transacciones =
         s.transacciones ++ [nuevaTransaccionDe usuarioId inp s.nextId]) ∧
    (actualizarMetasConIngreso 1 100 [metaC6Ej] =
       [{ metaC6Ej with montoActual := 10 }] ∧
     ({ metaC6Ej with montoActual := 10 }).montoActual =
       ({ metaC6Ej with montoActual := 10 }).montoObjetivo ∧
     ({ metaC6Ej with montoActual := 10 }).estado = "activa") := by
  refine ⟨?_, ?_, ?_, ?_, by norm_num [metaC6Ej], by decide⟩
  · intro oracle pool gs metas
    exact allocRunTry_map_sinMonto oracle gs pool metas
  · intro pool gs metas i m hm hnot
    exact allocRun_frame_id_not_mem gs pool metas i m hm hnot
  · intro oracle usuarioId inp s hval
    rw [crearTransaccion.eq_def, if_pos hval]
    dsimp only
    split <;> rfl
  · show actualizarMetasConIngreso 1 100 [metaC6Ej] = [{ metaC6Ej with montoActual := 10 }]
    norm_num [actualizarMetasConIngreso, metasQuery, ordenaMetas, insertaOrdenada,
      allocRun, incMontoActual, metaC6Ej]

/-- A valid income request body used by concrete instantiations. -/
def inpIngresoEj : TransaccionInput :=
  { tipo := "ingreso", descripcion := "Pago mensual", monto := 100, categoria := none }

theorem valida_inpIngresoEj : validaTransaccion inpIngresoEj = true := by
  have h3 : decide ((1/100 : ℚ) ≤ (100:ℚ)) = true := by norm_num
  simp only [validaTransaccion, inpIngresoEj, h3]
  decide

/-- Witness for C6: a goal outside the processed query keeps its value, and
a concrete valid income POST appends exactly its own transaction. -/
theorem c6_asignador_solo_montoActual_witness :
    ([metaC6Ej][0]? = some metaC6Ej ∧ metaC6Ej.id ∉ [metaC5Ej].map Meta.id ∧
      (allocRun 10 [metaC5Ej] [metaC6Ej])[0]? = some metaC6Ej) ∧
    (validaTransaccion inpIngresoEj = true ∧
      ((crearTransaccion (fun _ => false) 1 inpIngresoEj estadoC5Ej).1).transacciones =
        estadoC5Ej.transacciones ++ [nuevaTransaccionDe 1 inpIngresoEj estadoC5Ej.nextId]) :=
  ⟨⟨by decide, by decide,
     c6_asignador_solo_montoActual.2.1 10 [metaC5Ej] [metaC6Ej] 0 metaC6Ej
       (by decide) (by decide)⟩,
   ⟨valida_inpIngresoEj,
     c6_asignador_solo_montoActual.2.2.1 (fun _ => false) 1 inpIngresoEj estadoC5Ej
       valida_inpIngresoEj⟩⟩

/-- Claim C2: under the database invariant that document ids are unique,
an allocator run over goals none of which exceeds its target leaves every
goal at or below its target; moreover the loop funds the head goal with
exactly `min pool (montoObjetivo - montoActual)` and passes the leftover
pool to the remaining goals, skipping goals without remaining capacity. -/
theorem c2_invariante_objetivo
    (usuarioId : Nat) (montoIngreso : ℚ) (metas : List Meta)
    (hnd : (metas.map Meta.id).Nodup)
    (hinv : ∀ m ∈ metas, m.montoActual ≤ m.montoObjetivo) :
    (∀ m ∈ actualizarMetasConIngreso usuarioId montoIngreso metas,
        m.montoActual ≤ m.montoObjetivo) ∧
    (∀ (pool : ℚ) (g : Meta) (rest ms : List Meta), 0 < pool →
       (g.montoObjetivo - g.montoActual ≤ 0 →
         allocRun pool (g :: rest) ms = allocRun pool rest ms) ∧
       (0 < g.montoObjetivo - g.montoActual →
         allocRun pool (g :: rest) ms =
           allocRun (pool - min pool (g.montoObjetivo - g.montoActual)) rest
             (incMontoActual ms g.id (min pool (g.montoObjetivo - g.montoActual))))) := by
  constructor
  · apply allocRun_actual_le
    · exact nodup_ids_metasQuery usuarioId hnd
    · intro g hg m hm hid
      obtain ⟨hgm, -, -⟩ := mem_of_mem_metasQuery hg
      rw [eq_of_id_eq hnd hm hgm hid]
      exact ⟨rfl, rfl⟩
    · exact hinv
  · intro pool g rest ms hpool
    constructor
    · intro hsin
      rw [allocRun, if_neg (not_le.mpr hpool), if_pos hsin]
    · intro hcon
      rw [allocRun, if_neg (not_le.mpr hpool), if_neg (not_le.mpr hcon)]

/-- Witness for C2: the spec's clamp scenario — a nearly-full goal and an
empty goal; after the run no goal exceeds its target, and the loop equations
hold at the concrete head. -/
theorem c2_invariante_objetivo_witness :
    (([metaC5Ej, metaC6Ej].map Meta.id).Nodup ∧
     (∀ m ∈ [metaC5Ej, metaC6Ej], m.montoActual ≤ m.montoObjetivo)) ∧
    (∀ m ∈ actualizarMetasConIngreso 1 100 [metaC5Ej, metaC6Ej],
        m.montoActual ≤ m.montoObjetivo) :=
  ⟨⟨by decide, by decide⟩,
   (c2_invariante_objetivo 1 100 [metaC5Ej, metaC6Ej] (by decide) (by decide)).1⟩

/-- Claim C9: with unique document ids and no goal above its target, the
total amount the allocator adds equals
`min (montoIngreso * 0.1) (total remaining capacity of the queried goals)`;
in particular it is non-negative and never more than the pool. -/
theorem c9_conservacion_pool
    (usuarioId : Nat) (montoIngreso : ℚ) (metas : List Meta)
    (hpos : 0 ≤ montoIngreso)
    (hnd : (metas.map Meta.id).Nodup)
    (hinv : ∀ m ∈ metas, m.montoActual ≤ m.montoObjetivo) :
    totalActual (actualizarMetasConIngreso usuarioId montoIngreso metas) =
      totalActual metas +
        min (montoIngreso * (1/10)) (capacidadTotal (metasQuery usuarioId metas)) ∧
    totalActual (actualizarMetasConIngreso usuarioId montoIngreso metas) -
        totalActual metas ≤ montoIngreso * (1/10) ∧
    0 ≤ totalActual (actualizarMetasConIngreso usuarioId montoIngreso metas) -
        totalActual metas := by
  have hpool : 0 ≤ montoIngreso * (1/10) := by positivity
  have hcapq : ∀ g ∈ metasQuery usuarioId metas, g.montoActual ≤ g.montoObjetivo := by
    intro g hg
    exact hinv g (mem_of_mem_metasQuery hg).1
  have htot : totalActual (actualizarMetasConIngreso usuarioId montoIngreso metas) =
      totalActual metas +
        min (montoIngreso * (1/10)) (capacidadTotal (metasQuery usuarioId metas)) := by
    apply allocRun_totalActual
    · exact hpool
    · exact nodup_ids_metasQuery usuarioId hnd
    · intro g hg
      exact countP_id_eq_one hnd (mem_of_mem_metasQuery hg).1
    · intro g hg m hm hid
      obtain ⟨hgm, -, -⟩ := mem_of_mem_metasQuery hg
      rw [eq_of_id_eq hnd hm hgm hid]
      exact ⟨rfl, rfl⟩
    · exact hcapq
  refine ⟨htot, ?_, ?_⟩
  · rw [htot]
    have := min_le_left (montoIngreso * (1/10)) (capacidadTotal (metasQuery usuarioId metas))
    linarith
  · rw [htot]
    have := le_min hpool (capacidadTotal_nonneg hcapq)
    linarith

/-- Witness for C9: income 100 over the clamp scenario — total capacity of
the active goals is 20, the pool is 10, and exactly 10 is distributed. -/
theorem c9_conservacion_pool_witness :
    ((0:ℚ) ≤ 100 ∧ ([metaC5Ej, metaC6Ej].map Meta.id).Nodup ∧
     (∀ m ∈ [metaC5Ej, metaC6Ej], m.montoActual ≤ m.montoObjetivo)) ∧
    totalActual (actualizarMetasConIngreso 1 100 [metaC5Ej, metaC6Ej]) =
      totalActual [metaC5Ej, metaC6Ej] +
        min ((100:ℚ) * (1/10)) (capacidadTotal (metasQuery 1 [metaC5Ej, metaC6Ej])) :=
  ⟨⟨by decide, by decide, by decide⟩,
   (c9_conservacion_pool 1 100 [metaC5Ej, metaC6Ej] (by decide) (by decide) (by decide)).1⟩

theorem filtro_unico {g : Meta} (p : Meta → Bool) :
    ∀ {metas : List Meta}, (metas.map Meta.id).Nodup → g ∈ metas → p g = true →
      (∀ m ∈ metas, p m = true → m = g) → metas.filter p = [g] := by
  intro metas
  induction metas with
  | nil => intro _ hg; cases hg
  | cons m ms ih =>
    intro hnd hg hpg honly
    rw [List.map_cons, List.nodup_cons] at hnd
    rcases List.mem_cons.mp hg with rfl | hg'
    · rw [List.filter_cons_of_pos hpg]
      have hnil : ms.filter p = [] := by
        rw [List.filter_eq_nil_iff]
        intro x hx hpx
        have hxg : x = g := honly x (List.mem_cons_of_mem _ hx) hpx
        exact hnd.1 (hxg ▸ List.mem_map_of_mem Meta.id hx)
      rw [hnil]
    · have hpm : ¬(p m = true) := by
        intro hc
        have hmg : m = g := honly m (List.mem_cons_self m ms) hc
        exact hnd.1 (by rw [hmg]; exact List.mem_map_of_mem Meta.id hg')
      rw [List.filter_cons_of_neg hpm]
      exact ih hnd.2 hg' hpg (fun x hx hpx => honly x (List.mem_cons_of_mem _ hx) hpx)

/-- Claim C3: the allocator pool is exactly 10% of the income.  For a user
whose only active goal has remaining capacity of at least a tenth of the
income, the run adds exactly `montoIngreso * 0.1 = montoIngreso / 10` to
that goal and changes nothing else. -/
theorem c3_pool_diez_por_ciento
    (usuarioId : Nat) (montoIngreso : ℚ) (metas : List Meta) (g : Meta)
    (hpos : 0 < montoIngreso)
    (hnd : (metas.map Meta.id).Nodup)
    (hg : g ∈ metas) (hu : g.usuario = usuarioId) (hact : g.estado = "activa")
    (hunico : ∀ m ∈ metas, m.usuario = usuarioId → m.estado = "activa" → m = g)
    (hcap : montoIngreso * (1/10) ≤ g.montoObjetivo - g.montoActual) :
    actualizarMetasConIngreso usuarioId montoIngreso metas =
      incMontoActual metas g.id (montoIngreso * (1/10)) ∧
    montoIngreso * (1/10) = montoIngreso / 10 := by
  have hq : metasQuery usuarioId metas = [g] := by
    rw [metasQuery]
    have hfil : metas.filter (fun m => m.usuario == usuarioId && m.estado == "activa") =
        [g] := by
      apply filtro_unico _ hnd hg
      · simp [hu, hact]
      · intro m hm hpm
        simp only [Bool.and_eq_true, beq_iff_eq] at hpm
        exact hunico m hm hpm.1 hpm.2
    rw [hfil]
    rfl
  have hpool : 0 < montoIngreso * (1/10) := by positivity
  have hfal : 0 < g.montoObjetivo - g.montoActual := lt_of_lt_of_le hpool hcap
  constructor
  · rw [actualizarMetasConIngreso, hq, allocRun,
      if_neg (not_le.mpr hpool), if_neg (not_le.mpr hfal), min_eq_left hcap, allocRun]
  · ring

/-- Witness for C3: income 100, a single active goal with capacity 10 ≥ the
pool 10; the run adds exactly 10 = 100/10 to it. -/
theorem c3_pool_diez_por_ciento_witness :
    ((0:ℚ) < 100 ∧ ([metaC6Ej].map Meta.id).Nodup ∧ metaC6Ej ∈ [metaC6Ej] ∧
      metaC6Ej.usuario = 1 ∧ metaC6Ej.estado = "activa" ∧
      (100:ℚ) * (1/10) ≤ metaC6Ej.montoObjetivo - metaC6Ej.montoActual) ∧
    actualizarMetasConIngreso 1 100 [metaC6Ej] =
      incMontoActual [metaC6Ej] metaC6Ej.id ((100:ℚ) * (1/10)) :=
  ⟨⟨by decide, by decide, by decide, by decide, by decide, by norm_num [metaC6Ej]⟩,
   (c3_pool_diez_por_ciento 1 100 [metaC6Ej] metaC6Ej (by decide) (by decide)
      (by decide) (by decide) (by decide)
      (by intro m hm h1 h2; simp only [List.mem_singleton] at hm; exact hm)
      (by norm_num [metaC6Ej])).1⟩

/-- Two active goals of user 7 differing only in priority. -/
def metaAltaEj : Meta :=
  { id := 1, usuario := 7, titulo := "A", montoObjetivo := 50, montoActual := 0,
    fechaLimite := none, prioridad := "alta", estado := "activa" }

def metaMediaEj : Meta :=
  { id := 2, usuario := 7, titulo := "B", montoObjetivo := 50, montoActual := 0,
    fechaLimite := none, prioridad := "media", estado := "activa" }

/-- Two active high-priority goals of user 7, one with a deadline and one
without. -/
def metaConFechaEj : Meta :=
  { id := 3, usuario := 7, titulo := "C", montoObjetivo := 50, montoActual := 0,
    fechaLimite := some 5, prioridad := "alta", estado := "activa" }

def metaSinFechaEj : Meta :=
  { id := 4, usuario := 7, titulo := "D", montoObjetivo := 50, montoActual := 0,
    fechaLimite := none, prioridad := "alta", estado := "activa" }

/-- Claim C1 fails on the code: `.sort({ prioridad: -1 })` orders the BSON
strings lexicographically, so descending order is 'media' > 'baja' > 'alta',
not high > medium > low, and with an insufficient pool the whole pool goes
to the 'media' goal while the 'alta' goal gets nothing; moreover a missing
deadline sorts before (not after) a present one.  This theorem evaluates the
embedded code at those failing inputs. -/
theorem c1_orden_prioridad_codigo :
    mongoMetaLe metaMediaEj metaAltaEj = true ∧
    mongoMetaLe metaAltaEj metaMediaEj = false ∧
    metasQuery 7 [metaAltaEj, metaMediaEj] = [metaMediaEj, metaAltaEj] ∧
    actualizarMetasConIngreso 7 100 [metaAltaEj, metaMediaEj] =
      [metaAltaEj, { metaMediaEj with montoActual := 10 }] ∧
    mongoMetaLe metaSinFechaEj metaConFechaEj = true ∧
    mongoMetaLe metaConFechaEj metaSinFechaEj = false ∧
    metasQuery 7 [metaConFechaEj, metaSinFechaEj] = [metaSinFechaEj, metaConFechaEj] := by
  refine ⟨by decide, by decide, by decide, ?_, by decide, by decide, by decide⟩
  have hq : metasQuery 7 [metaAltaEj, metaMediaEj] = [metaMediaEj, metaAltaEj] := by
    decide
  rw [actualizarMetasConIngreso, hq]
  norm_num [allocRun, incMontoActual, metaAltaEj, metaMediaEj]

/-- Claim C7: the allocator is best-effort.  A valid transaction-creation
request answers 201 with its transaction for every failure oracle; the
failure-free loop coincides with the pure allocator; a write failure at the
current goal ends the run keeping all earlier updates and touching no later
goal; a successful write contributes and continues. -/
theorem c7_mejor_esfuerzo
    (oracle : Nat → Bool) (usuarioId : Nat) (inp : TransaccionInput) (s : AppState)
    (hval : validaTransaccion inp = true) :
    (postStatus (crearTransaccion oracle usuarioId inp s).2 = 201 ∧
     (crearTransaccion oracle usuarioId inp s).2 =
       PostResult.created (nuevaTransaccionDe usuarioId inp s.nextId)) ∧
    (∀ (pool : ℚ) (gs metas : List Meta),
       allocRunTry (fun _ => false) pool gs metas = allocRun pool gs metas) ∧
    (∀ (orc : Nat → Bool) (pool : ℚ) (g : Meta) (rest metas : List Meta),
       0 < pool → 0 < g.montoObjetivo - g.montoActual → orc g.id = true →
       allocRunTry orc pool (g :: rest) metas = metas) ∧
    (∀ (orc : Nat → Bool) (pool : ℚ) (g : Meta) (rest metas : List Meta),
       0 < pool → 0 < g.montoObjetivo - g.montoActual → orc g.id = false →
       allocRunTry orc pool (g :: rest) metas =
         allocRunTry orc (pool - min pool (g.montoObjetivo - g.montoActual)) rest
           (incMontoActual metas g.id (min pool (g.montoObjetivo - g.montoActual)))) := by
  refine ⟨⟨?_, ?_⟩, fun pool gs metas => allocRunTry_false gs pool metas, ?_, ?_⟩
  · rw [crearTransaccion.eq_def, if_pos hval]
    rfl
  · rw [crearTransaccion.eq_def, if_pos hval]
  · intro orc pool g rest metas h1 h2 h3
    rw [allocRunTry, if_neg (not_le.mpr h1), if_neg (not_le.mpr h2), if_pos h3]
  · intro orc pool g rest metas h1 h2 h3
    rw [allocRunTry, if_neg (not_le.mpr h1), if_neg (not_le.mpr h2),
      if_neg (show ¬(orc g.id = true) by simp [h3])]

/-- Witness for C7: with an always-failing oracle, a concrete valid income
POST still answers 201 and a failing first write leaves the collection
untouched. -/
theorem c7_mejor_esfuerzo_witness :
    validaTransaccion inpIngresoEj = true ∧
    postStatus (crearTransaccion (fun _ => true) 1 inpIngresoEj estadoC5Ej).2 = 201 ∧
    ((0:ℚ) < 10 ∧ (0:ℚ) < metaC6Ej.montoObjetivo - metaC6Ej.montoActual ∧
      (fun _ : Nat => true) metaC6Ej.id = true ∧
      allocRunTry (fun _ => true) 10 [metaC6Ej] [metaC6Ej] = [metaC6Ej]) :=
  ⟨valida_inpIngresoEj,
   (c7_mejor_esfuerzo (fun _ => true) 1 inpIngresoEj estadoC5Ej valida_inpIngresoEj).1.1,
   by decide, by norm_num [metaC6Ej], rfl,
   (c7_mejor_esfuerzo (fun _ => true) 1 inpIngresoEj estadoC5Ej
      valida_inpIngresoEj).2.2.1 (fun _ => true) 10 metaC6Ej [] [metaC6Ej]
     (by decide) (by norm_num [metaC6Ej]) rfl⟩

/-- A valid expense request body used by concrete instantiations. -/
def inpGastoEj : TransaccionInput :=
  { tipo := "gasto", descripcion := "Cena con amigos", monto := 30, categoria := none }

theorem valida_inpGastoEj : validaTransaccion inpGastoEj = true := by
  have h3 : decide ((1/100 : ℚ) ≤ (30:ℚ)) = true := by norm_num
  simp only [validaTransaccion, inpGastoEj, h3]
  decide

/-- Claim C10: PUT /transacciones/:id never touches the goal collection —
for every input, valid or not, found or not, the goals (amounts and
statuses) are exactly those of the pre-state — while POST / runs the
allocator exactly when the created transaction's tipo is `'ingreso'` and
leaves the goals unchanged when it is `'gasto'`. -/
theorem c10_put_no_invoca_asignador :
    (∀ (usuarioId txId : Nat) (inp : TransaccionInput) (s : AppState),
       ((actualizarTransaccion usuarioId txId inp s).1).metas = s.metas) ∧
    (∀ (oracle : Nat → Bool) (usuarioId : Nat) (inp : TransaccionInput) (s : AppState),
       validaTransaccion inp = true → inp.tipo = "ingreso" →
       ((crearTransaccion oracle usuarioId inp s).1).metas =
         actualizarMetasConIngresoTry oracle usuarioId inp.monto s.metas) ∧
    (∀ (oracle : Nat → Bool) (usuarioId : Nat) (inp : TransaccionInput) (s : AppState),
       validaTransaccion inp = true → inp.tipo = "gasto" →
       ((crearTransaccion oracle usuarioId inp s).1).metas = s.metas) := by
  refine ⟨?_, ?_, ?_⟩
  · intro usuarioId txId inp s
    rw [actualizarTransaccion.eq_def]
    by_cases hv : validaTransaccion inp = true
    · rw [if_pos hv]
      dsimp only
      split <;> rfl
    · rw [if_neg hv]
  · intro oracle usuarioId inp s hval htipo
    rw [crearTransaccion.eq_def, if_pos hval]
    dsimp only
    rw [if_pos (show ((nuevaTransaccionDe usuarioId inp s.nextId).tipo == "ingreso") = true
      by simp [nuevaTransaccionDe, htipo])]
    rfl
  · intro oracle usuarioId inp s hval htipo
    rw [crearTransaccion.eq_def, if_pos hval]
    dsimp only
    rw [if_neg (show ¬((nuevaTransaccionDe usuarioId inp s.nextId).tipo == "ingreso") = true
      by simp [nuevaTransaccionDe, htipo])]

/-- Witness for C10: a concrete PUT on an income transaction leaves the
goal collection unchanged; a concrete expense POST also leaves it
unchanged; a concrete income POST produces exactly the allocator result. -/
theorem c10_put_no_invoca_asignador_witness :
    ((actualizarTransaccion 1 99 inpIngresoEj estadoC5Ej).1).metas = estadoC5Ej.metas ∧
    (validaTransaccion inpIngresoEj = true ∧ inpIngresoEj.tipo = "ingreso" ∧
      ((crearTransaccion (fun _ => false) 1 inpIngresoEj estadoC5Ej).1).metas =
        actualizarMetasConIngresoTry (fun _ => false) 1 inpIngresoEj.monto
          estadoC5Ej.metas) ∧
    (validaTransaccion inpGastoEj = true ∧ inpGastoEj.tipo = "gasto" ∧
      ((crearTransaccion (fun _ => false) 1 inpGastoEj estadoC5Ej).1).metas =
        estadoC5Ej.metas) :=
  ⟨c10_put_no_invoca_asignador.1 1 99 inpIngresoEj estadoC5Ej,
   ⟨valida_inpIngresoEj, rfl,
    c10_put_no_invoca_asignador.2.1 (fun _ => false) 1 inpIngresoEj estadoC5Ej
      valida_inpIngresoEj rfl⟩,
   ⟨valida_inpGastoEj, rfl,
    c10_put_no_invoca_asignador.2.2 (fun _ => false) 1 inpGastoEj estadoC5Ej
      valida_inpGastoEj rfl⟩⟩
